import Mathlib

/-!
Verification of the card-format settings controller
(`src/ext/js/pages/settings/anki-controller.js`).

The development shallowly embeds the state and operations of `AnkiController`
and `AnkiCardController`: card formats are an insertion-ordered list, the
selection index is an integer (JS numbers on this code path only take integer
values), field maps are insertion-ordered association lists of JS objects, and
the enumeration order of a JS object (`Object.entries`, object spread) is
modelled including the ECMAScript rule that array-index-like keys are
enumerated first in ascending numeric order.  Fallible code returns `Except`.
-/

namespace AnkiSpec

/-- Dictionary entry type of a card format (`type: enum{term, kanji}`). -/
inductive DictionaryEntryType where
  | term
  | kanji
deriving DecidableEq

/-- One output field of a card format: `{value, overwriteMode}`.  The source
stores `overwriteMode` as a plain string such as `"coalesce"`. -/
structure AnkiField where
  value : String
  overwriteMode : String
deriving DecidableEq

/-- A field map as a JS object: insertion-ordered association list from field
name to field.  Keys are unique in any list that models a real JS object. -/
abbrev FieldsMap := List (String × AnkiField)

/-- One card format (`AnkiCardFormat`): name, type, deck, model, fields, icon. -/
structure CardFormat where
  name : String
  type : DictionaryEntryType
  deck : String
  model : String
  fields : FieldsMap
  icon : String
deriving DecidableEq

/-- The controller state the format-list claims depend on: the persisted
`anki.cardFormats` list, the transient selection `_cardFormatIndex` (an `Int`,
since `deleteCardFormat` briefly sets it to `-1` before the reload clamps it),
and whether the maximum-reached modal has been shown. -/
structure AnkiState where
  cardFormats : List CardFormat
  cardFormatIndex : Int
  maximumModalShown : Bool
deriving DecidableEq

/-- Clamp step of `_setupTabs` (anki-controller.js lines 486-491), verbatim:
`if (idx > cardFormats.length) idx = length - 1; if (idx < 0) idx = 0;`.
Note the first comparison uses `length`, not `length - 1`. -/
def setupTabsClampIndex (idx : Int) (len : Nat) : Int :=
  let i1 := if idx > (len : Int) then (len : Int) - 1 else idx
  if i1 < 0 then 0 else i1

/-- Reload of the tab strip (`_updateOptions` leading to `_setupTabs`): the
selection index is clamped against the current format list. -/
def reloadTabs (s : AnkiState) : AnkiState :=
  { s with cardFormatIndex := setupTabsClampIndex s.cardFormatIndex s.cardFormats.length }

/-- Embedding of `AnkiController.deleteCardFormat` (lines 646-661): refuse an
out-of-range index, otherwise splice out one element at the index, set the
selection to `index - 1`, and reload (which clamps the selection). -/
def deleteCardFormat (s : AnkiState) (cardFormatIndex : Int) : AnkiState :=
  if cardFormatIndex < 0 ∨ (s.cardFormats.length : Int) ≤ cardFormatIndex then s
  else
    reloadTabs
      { s with
        cardFormats := s.cardFormats.eraseIdx cardFormatIndex.toNat
        cardFormatIndex := cardFormatIndex - 1 }

/-- The delete operation as the UI exposes it: `_onCardFormatDeleteClick`
(line 577) refuses when only one format remains, otherwise
`deleteCardFormat` runs (after modal confirmation). -/
def deleteFormat (s : AnkiState) (cardFormatIndex : Int) : AnkiState :=
  if s.cardFormats.length = 1 then s else deleteCardFormat s cardFormatIndex

/-- Default-initialized card format appended by `_addNewFormat` (lines
551-559); `index` is the length of the list before the append. -/
def defaultCardFormat (index : Nat) : CardFormat :=
  { name := "Format " ++ Nat.repr (index + 1)
    type := .term
    deck := ""
    model := ""
    fields := []
    icon := "big-circle" }

/-- Embedding of `AnkiController._addNewFormat` (lines 541-570): refuse (and
show the maximum-reached modal) when the list already has five or more
formats, otherwise append a default-initialized format and reload. -/
def addNewFormat (s : AnkiState) : AnkiState :=
  let index := s.cardFormats.length
  if 5 ≤ index then { s with maximumModalShown := true }
  else reloadTabs { s with cardFormats := s.cardFormats ++ [defaultCardFormat index] }

/-- Validity of the selection index: it resolves to an element of the list. -/
def selectionValid (s : AnkiState) : Prop :=
  0 ≤ s.cardFormatIndex ∧ s.cardFormatIndex < (s.cardFormats.length : Int)

instance (s : AnkiState) : Decidable (selectionValid s) := by
  unfold selectionValid; infer_instance

/-- Selection rule exactly as the spec words it (for comparison with the
code): the selection is decremented when the deleted entry is before or at
the cursor, and otherwise left unchanged. -/
def specSelectionAfterDelete (sel deleted : Int) : Int :=
  if deleted ≤ sel then sel - 1 else sel

/-- Dataset of the `#anki-card-primary` panel element, reduced to the
attributes `_setCardFormatIndex` writes. -/
structure PanelDataset where
  cardFormatIndex : Option String
  ankiCardMenu : Option String
deriving DecidableEq

/-- State touched by `_setCardFormatIndex`: the controller field
`_cardFormatIndex` and the backing panel element (absent = `null`). -/
structure PrimaryState where
  cardFormatIndex : Int
  ankiCardPrimary : Option PanelDataset
deriving DecidableEq

/-- Embedding of `AnkiController._setCardFormatIndex` (lines 262-292): the
controller index is assigned first; when the backing panel element is absent
an error is thrown (the error value carries the already-mutated state, since
a JS exception does not roll back the assignment); otherwise the panel
dataset is updated.  The further `data-setting` rewrites on child nodes are
not modelled; they happen after the throw point and touch no state a claim
mentions. -/
def setCardFormatIndex (s : PrimaryState) (cardFormatIndex : Int)
    (ankiCardMenu : Option String) : Except (String × PrimaryState) PrimaryState :=
  let s1 : PrimaryState := { s with cardFormatIndex := cardFormatIndex }
  match s1.ankiCardPrimary with
  | none => .error ("Anki card primary element not found", s1)
  | some panel =>
      .ok { s1 with
            ankiCardPrimary := some { panel with
              cardFormatIndex := some (toString cardFormatIndex)
              ankiCardMenu := ankiCardMenu } }

/-- Concrete card formats for scenarios. -/
def fmtA : CardFormat := { name := "A", type := .term, deck := "", model := "", fields := [], icon := "big-circle" }

/-- Concrete card format B. -/
def fmtB : CardFormat := { name := "B", type := .term, deck := "", model := "", fields := [], icon := "big-circle" }

/-- Concrete card format C. -/
def fmtC : CardFormat := { name := "C", type := .term, deck := "", model := "", fields := [], icon := "big-circle" }

/-- Three-format state with the third format selected. -/
def st3 : AnkiState := { cardFormats := [fmtA, fmtB, fmtC], cardFormatIndex := 2, maximumModalShown := false }

/-- Concrete field for scenarios. -/
def fldA : AnkiField := { value := "va", overwriteMode := "coalesce" }

/-- Concrete field for scenarios. -/
def fldB : AnkiField := { value := "vb", overwriteMode := "overwrite" }

/-- Two-field map for scenarios. -/
def mAB : FieldsMap := [("A", fldA), ("B", fldB)]

/-- Key membership of a field map, as `Object.prototype.hasOwnProperty`. -/
def hasKey (fields : FieldsMap) (name : String) : Bool :=
  fields.any (fun p => p.1 == name)

/-- Property read `fields[name]` of a JS object modelled as an insertion list
with unique keys. -/
def jsLookup (fields : FieldsMap) (name : String) : Option AnkiField :=
  (fields.find? (fun p => p.1 == name)).map (·.2)

/-- Object spread followed by a computed key, `{...fields, [name]: v}`: an
existing key keeps its position and gets the new value, a new key is created
last. -/
def jsSpreadSet (fields : FieldsMap) (name : String) (v : AnkiField) : FieldsMap :=
  if hasKey fields name then
    fields.map (fun p => if p.1 == name then (p.1, v) else p)
  else fields ++ [(name, v)]

/-- Value of a list of decimal digit characters, most significant first. -/
def parseDec (cs : List Char) : Nat :=
  cs.foldl (fun a c => 10 * a + (c.toNat - 48)) 0

/-- ECMAScript array-index test for a property key (used by the enumeration
order of `Object.entries` and object spread): the canonical decimal string of
an integer below 2^32 - 1, so nonempty, all digits, no leading zero unless
the key is exactly "0". -/
def isArrayIndex (s : String) : Bool :=
  match s.data with
  | [] => false
  | c :: cs =>
      c.isDigit && cs.all Char.isDigit && (c != '0' || cs.isEmpty) &&
        decide (parseDec (c :: cs) < 4294967295)

/-- Numeric value of an (array-index) key, for ordering. -/
def keyNum (s : String) : Nat := parseDec s.data

/-- Insert an entry into a list sorted by ascending key value. -/
def insertNumeric (x : String × AnkiField) : FieldsMap → FieldsMap
  | [] => [x]
  | y :: ys => if keyNum x.1 ≤ keyNum y.1 then x :: y :: ys else y :: insertNumeric x ys

/-- Insertion sort by ascending numeric key value. -/
def sortNumeric (l : FieldsMap) : FieldsMap :=
  l.foldr insertNumeric []

/-- Enumeration order of a JS object (`Object.entries`, ECMAScript
OrdinaryOwnPropertyKeys): array-index-like keys first in ascending numeric
order, then the remaining string keys in insertion order.  `_setupFields`
renders field rows in this order, so it is the display order. -/
def jsEntries (fields : FieldsMap) : FieldsMap :=
  sortNumeric (fields.filter (fun p => isArrayIndex p.1)) ++
    fields.filter (fun p => !isArrayIndex p.1)

/-- Whitespace removed by JS `String.prototype.trim`: space, tab, and line
terminators (the uncommon Unicode space code points are left out of the
model). -/
def jsWhitespace (c : Char) : Bool :=
  c == ' ' || c == '\t' || c == '\n' || c == '\r' || c == '\x0b' || c == '\x0c'

/-- JS `String.prototype.trim`: strip leading and trailing whitespace. -/
def jsTrim (s : String) : String :=
  List.asString (((s.data.dropWhile jsWhitespace).reverse.dropWhile jsWhitespace).reverse)

/-- Embedding of `AnkiCardController._onFieldNameBlur` (lines 957-981).  The
row `index` designates an entry of `_fieldEntries`, which `_setupFields`
built from `Object.entries` of the field map; the result is the new field map
together with the string the name input displays after the handler (the
handler writes `node.value = oldName` only on the revert paths).  The
`getD` default on the removed value is never used: the entry name is always a
key of the map. -/
def onFieldNameBlur (fields : FieldsMap) (index : Nat) (inputValue : String) :
    FieldsMap × String :=
  let newName := jsTrim inputValue
  match (jsEntries fields)[index]? with
  | none => (fields, inputValue)
  | some entry =>
      let oldName := entry.1
      if newName == oldName then (fields, inputValue)
      else if newName == "" then (fields, oldName)
      else if hasKey fields newName then (fields, oldName)
      else
        let removed := (jsLookup fields oldName).getD { value := "", overwriteMode := "" }
        let rest := fields.filter (fun p => p.1 != oldName)
        (jsSpreadSet rest newName removed, inputValue)

/-- Candidate names `Field`, `Field1`, `Field2`, ... tried by
`_onAddFieldClick`. -/
def fieldCandidate : Nat → String
  | 0 => "Field"
  | k + 1 => "Field" ++ Nat.repr (k + 1)

/-- The `while (hasOwnProperty(fields, name))` loop of `_onAddFieldClick`
(lines 936-941), with explicit fuel: starting from candidate `counter`, return
the first candidate that is not a key.  `genFieldName` supplies fuel
`fields.length + 1`, which the freshness theorem shows is never exhausted. -/
def genFieldNameAux (fields : FieldsMap) : Nat → Nat → String
  | 0, counter => fieldCandidate counter
  | fuel + 1, counter =>
      if hasKey fields (fieldCandidate counter) then genFieldNameAux fields fuel (counter + 1)
      else fieldCandidate counter

/-- Name generated by `_onAddFieldClick` for a new field. -/
def genFieldName (fields : FieldsMap) : String :=
  genFieldNameAux fields (fields.length + 1) 0

/-- Embedding of `AnkiCardController._onAddFieldClick` (lines 934-951): insert
a freshly named field with empty value and overwrite policy `coalesce` via
`{...fields, [name]: newField}`. -/
def addFieldOp (fields : FieldsMap) : FieldsMap :=
  jsSpreadSet fields (genFieldName fields) { value := "", overwriteMode := "coalesce" }

/-- Separator characters matched at a hyphen position of a marker name: the
character class of the regex `[-_ ]*`. -/
def sepChar (c : Char) : Bool :=
  c == '-' || c == '_' || c == ' '

/-- Case-insensitive character comparison (regex flag `i`; the marker names
are ASCII). -/
def charEqCI (a b : Char) : Bool :=
  a.toLower == b.toLower

/-- Matcher for the pattern `_getDefaultFieldValue` builds from one marker
name (lines 1092-1099): the name is matched literally, case-insensitively and
anchored (`^...$`), except each hyphen matches any run, possibly empty, of
hyphens, underscores or spaces (the source replaces every hyphen of the name
by the regex piece `[-_ ]*`).  The
structural fuel makes the kernel able to evaluate the matcher; every
recursive call shrinks `ps.length + cs.length` while the fuel supplied by
`matchNameChars` exceeds that sum, so the fuel is never exhausted. -/
def matchNameCharsAux : Nat → List Char → List Char → Bool
  | 0, _, _ => false
  | _ + 1, [], [] => true
  | _ + 1, [], _ :: _ => false
  | fuel + 1, '-' :: ps, cs =>
      matchNameCharsAux fuel ps cs ||
        (match cs with
         | [] => false
         | c :: cs2 => sepChar c && matchNameCharsAux fuel ('-' :: ps) cs2)
  | _ + 1, _ :: _, [] => false
  | fuel + 1, p :: ps, c :: cs => charEqCI p c && matchNameCharsAux fuel ps cs

/-- Anchored match of one marker-name pattern against a field name. -/
def matchNameChars (ps cs : List Char) : Bool :=
  matchNameCharsAux (ps.length + cs.length + 1) ps cs

/-- Alias table of `_getDefaultFieldValue` (lines 1068-1082), in source
order.  The source builds a JS `Map` from this list, where a repeated key
(here `popup-selection-text`) keeps only the last entry. -/
def markerAliasesList : List (String × List String) := [
  ("expression", ["phrase", "term", "word"]),
  ("reading", ["expression-reading", "term-reading", "word-reading"]),
  ("furigana", ["expression-furigana", "term-furigana", "word-furigana"]),
  ("glossary", ["definition", "meaning"]),
  ("audio", ["sound", "word-audio", "term-audio", "expression-audio"]),
  ("dictionary", ["dict"]),
  ("pitch-accents", ["pitch", "pitch-accent", "pitch-pattern"]),
  ("sentence", ["example-sentence"]),
  ("frequency-harmonic-rank", ["freq", "frequency", "freq-sort", "freqency-sort"]),
  ("popup-selection-text", ["selection"]),
  ("pitch-accent-positions", ["pitch-position"]),
  ("pitch-accent-categories", ["pitch-categories"]),
  ("popup-selection-text", ["selection-text"])]

/-- JS `Map.get` over the alias table: the last `set` of a key wins. -/
def markerAliasGet (marker : String) : Option (List String) :=
  (markerAliasesList.reverse.find? (fun p => p.1 == marker)).map (·.2)

/-- Modelled from the spec: `getStandardFieldMarkers`
(`anki-template-util.js`) is imported by the controller but is not among the
reviewed files; the spec (§4.2 and the glossary) describes it only as a fixed
table of canonical marker names.  The model uses the canonical marker names
of the alias table in `_getDefaultFieldValue`, in that order, for the term
type, and a small plausible subset for the kanji type (no claim exercises
it). -/
def getStandardFieldMarkers (t : DictionaryEntryType) : List String :=
  match t with
  | .term => ["expression", "reading", "furigana", "glossary", "audio", "dictionary",
      "pitch-accents", "sentence", "frequency-harmonic-rank", "popup-selection-text",
      "pitch-accent-positions", "pitch-accent-categories"]
  | .kanji => ["character", "glossary", "dictionary", "sentence"]

/-- One marker's test in the loop of `_getDefaultFieldValue` (lines
1085-1104): the alternation of the marker's own name and its aliases. -/
def markerMatches (marker fieldName : String) : Bool :=
  (marker :: (markerAliasGet marker).getD []).any
    (fun nm => matchNameChars nm.data fieldName.data)

/-- First matching marker wins and yields its token; no match yields the
empty string. -/
def findMarkerDefault : List String → String → String
  | [], _ => ""
  | m :: ms, fieldName =>
      if markerMatches m fieldName then "\x7b" ++ m ++ "\x7d"
      else findMarkerDefault ms fieldName

/-- Embedding of `AnkiCardController._getDefaultFieldValue` (lines
1054-1107): a field kept from `oldFields` keeps its value; row 0 gets the
type's primary token; any other row gets the first marker whose name table
matches the field name, or the empty string. -/
def getDefaultFieldValue (fieldName : String) (index : Nat)
    (dictionaryEntryType : DictionaryEntryType) (oldFields : Option FieldsMap) : String :=
  match oldFields.bind (fun of => (of.find? (fun p => p.1 == fieldName)).map (·.2.value)) with
  | some v => v
  | none =>
      if index = 0 then
        if dictionaryEntryType = .kanji then "{character}" else "{expression}"
      else findMarkerDefault (getStandardFieldMarkers dictionaryEntryType) fieldName

/-- Embedding of `AnkiCardController._validateField` (lines 818-824),
returning the `data-invalid` flag.  `hasPermissionsAttr` is the row's
`data-has-permissions` attribute (absent when no permission is required),
and `containsMarker` stands for `stringContainsAnyFieldMarker`
(`anki-util.js`, not among the reviewed files), over which the validation
theorem quantifies. -/
def validateField (hasPermissionsAttr : Option String) (index : Nat) (value : String)
    (containsMarker : String → Bool) : Bool :=
  let valid := hasPermissionsAttr != some "false"
  let valid2 := if valid && index == 0 && !containsMarker value then false else valid
  !valid2

/-- Error thrown by the remote note-API, reduced to what `_showAnkiError`
reads: the `message`, and the `String(error)` conversion used as a fallback
when the message is empty. -/
structure RemoteError where
  message : String
  stringRep : String
deriving DecidableEq

/-- Regex test `/[.!?]$/`: the string ends in terminal punctuation. -/
def endsWithTerminalPunctuation (s : String) : Bool :=
  match s.data.getLast? with
  | some c => c == '.' || c == '!' || c == '?'
  | none => false

/-- Display string `_showAnkiError` (lines 442-450) derives from an error:
`error.message`, falling back to the string conversion when the message is
empty, with a trailing period appended unless the string already ends in
`.`, `!` or `?`. -/
def ankiErrorDisplayString (e : RemoteError) : String :=
  let errorString := if e.message == "" then e.stringRep else e.message
  if endsWithTerminalPunctuation errorString then errorString else errorString ++ "."

/-- Embedding of `AnkiController._getDeckNames` (lines 401-409): the remote
call's outcome is caught at the call site; success sorts and returns the
names, failure returns the empty list paired with the error.  `sortFn`
stands for `_sortStringArray` (an `Intl.Collator` comparison sort). -/
def getDeckNamesCaught (remote : Except RemoteError (List String))
    (sortFn : List String → List String) : List String × Option RemoteError :=
  match remote with
  | .ok result => (sortFn result, none)
  | .error e => ([], some e)

/-- Embedding of `AnkiController._getModelNames` (lines 414-422), identical
in shape to `_getDeckNames`. -/
def getModelNamesCaught (remote : Except RemoteError (List String))
    (sortFn : List String → List String) : List String × Option RemoteError :=
  match remote with
  | .ok result => (sortFn result, none)
  | .error e => ([], some e)

/-- Embedding of `AnkiController._getAnkiData` (lines 377-396): both fetches
are caught; the deck error is displayed first, else the model error, else the
error display is cleared; the name lists are returned in every case, so the
function never propagates an exception. -/
def getAnkiData (deckRes modelRes : Except RemoteError (List String))
    (sortFn : List String → List String) : (List String × List String) × Option String :=
  let deck := getDeckNamesCaught deckRes sortFn
  let model := getModelNamesCaught modelRes sortFn
  let display :=
    match deck.2 with
    | some e => some (ankiErrorDisplayString e)
    | none =>
        match model.2 with
        | some e => some (ankiErrorDisplayString e)
        | none => none
  ((deck.1, model.1), display)

/-- C1: `deleteFormat` on a single-element list is a no-op (list and selection
unchanged); on a list with two or more elements and a valid index it removes
exactly that one element, so the length decreases by exactly 1 and never
drops below 1. -/
theorem deleteFormat_single_noop_removes_one (s : AnkiState) (i : Int) :
    (s.cardFormats.length = 1 → deleteFormat s i = s) ∧
    (2 ≤ s.cardFormats.length → 0 ≤ i → i < (s.cardFormats.length : Int) →
      (deleteFormat s i).cardFormats = s.cardFormats.eraseIdx i.toNat ∧
      (deleteFormat s i).cardFormats.length = s.cardFormats.length - 1 ∧
      1 ≤ (deleteFormat s i).cardFormats.length) := by
  constructor
  · intro h
    simp [deleteFormat, h]
  · intro h2 h0 hlt
    have hne : ¬ s.cardFormats.length = 1 := by omega
    have hin : ¬ (i < 0 ∨ (s.cardFormats.length : Int) ≤ i) := by omega
    have htn : i.toNat < s.cardFormats.length := by omega
    have hlen : (s.cardFormats.eraseIdx i.toNat).length = s.cardFormats.length - 1 := by
      rw [List.length_eraseIdx]
      simp [htn]
    refine ⟨?_, ?_, ?_⟩ <;>
      simp [deleteFormat, deleteCardFormat, reloadTabs, hne, hin, hlen] <;> omega

/-- C2, counterexample: the spec rule "decremented exactly when the deleted
entry is before or at the cursor, otherwise unchanged" predicts selection 1
after deleting index 0 from a three-element list with cursor 2, but the code
(`deleteCardFormat` sets the selection to `deletedIndex - 1` unconditionally,
then clamps at 0) yields selection 0. -/
theorem selection_decrement_cex :
    deleteFormat st3 0 =
      { cardFormats := [fmtB, fmtC], cardFormatIndex := 0, maximumModalShown := false } ∧
    specSelectionAfterDelete st3.cardFormatIndex 0 = 1 ∧
    (deleteFormat st3 0).cardFormatIndex ≠ specSelectionAfterDelete st3.cardFormatIndex 0 := by
  decide

/-- C2, amended: after an insert, or a delete through the UI guard, the
selection index is in range; on deletion of a valid index `i` the selection
becomes `i - 1` clamped to 0 (independent of where the cursor was), which for
the at-cursor deletion of the UI is a clamped decrement. -/
theorem selection_valid_after_ops (s : AnkiState) (i : Int) (hv : selectionValid s) :
    selectionValid (addNewFormat s) ∧
    selectionValid (deleteFormat s i) ∧
    (2 ≤ s.cardFormats.length → 0 ≤ i → i < (s.cardFormats.length : Int) →
      (deleteFormat s i).cardFormatIndex = max (i - 1) 0) := by
  obtain ⟨hv0, hv1⟩ := hv
  refine ⟨?_, ?_, ?_⟩
  · by_cases h5 : 5 ≤ s.cardFormats.length
    · simpa [addNewFormat, h5, selectionValid] using ⟨hv0, hv1⟩
    · simp only [addNewFormat, h5, if_false, reloadTabs, setupTabsClampIndex, selectionValid]
      simp only [List.length_append, List.length_cons, List.length_nil]
      constructor <;> split <;> rename_i h <;> try split <;> omega
  · by_cases h1 : s.cardFormats.length = 1
    · unfold deleteFormat
      rw [if_pos h1]
      exact ⟨hv0, hv1⟩
    · by_cases hin : i < 0 ∨ (s.cardFormats.length : Int) ≤ i
      · unfold deleteFormat deleteCardFormat
        rw [if_neg h1, if_pos hin]
        exact ⟨hv0, hv1⟩
      · have htn : i.toNat < s.cardFormats.length := by omega
        have hlen : (s.cardFormats.eraseIdx i.toNat).length = s.cardFormats.length - 1 := by
          rw [List.length_eraseIdx]
          simp [htn]
        simp only [deleteFormat, h1, if_false, deleteCardFormat, hin, reloadTabs,
          setupTabsClampIndex, selectionValid, hlen]
        constructor <;> split <;> rename_i h <;> try split <;> omega
  · intro h2 h0 hlt
    have h1 : ¬ s.cardFormats.length = 1 := by omega
    have hin : ¬ (i < 0 ∨ (s.cardFormats.length : Int) ≤ i) := by omega
    have htn : i.toNat < s.cardFormats.length := by omega
    have hlen : (s.cardFormats.eraseIdx i.toNat).length = s.cardFormats.length - 1 := by
      rw [List.length_eraseIdx]
      simp [htn]
    simp only [deleteFormat, h1, if_false, deleteCardFormat, hin, reloadTabs,
      setupTabsClampIndex, hlen]
    split <;> rename_i h <;> try split <;> omega

/-- C2, witness: the spec scenario `[A,B,C]`, selection 2, delete index 2
yields `[A,B]` with selection 1, and the amended validity holds there. -/
theorem selection_valid_witness :
    (deleteFormat st3 2 =
      { cardFormats := [fmtA, fmtB], cardFormatIndex := 1, maximumModalShown := false }) ∧
    selectionValid (deleteFormat st3 2) ∧ selectionValid (addNewFormat st3) := by
  have h := selection_valid_after_ops st3 2 (by decide)
  exact ⟨by decide, h.2.1, h.1⟩

/-- C3: `addFormat` appends one default-initialized format at the end when the
length is strictly below 5, refuses (list unchanged, maximum-reached notice
shown) at 5, and never grows the list past 5. -/
theorem addFormat_caps_at_five (s : AnkiState) :
    (s.cardFormats.length < 5 →
      (addNewFormat s).cardFormats = s.cardFormats ++ [defaultCardFormat s.cardFormats.length] ∧
      (addNewFormat s).maximumModalShown = s.maximumModalShown) ∧
    (s.cardFormats.length = 5 →
      (addNewFormat s).cardFormats = s.cardFormats ∧
      (addNewFormat s).maximumModalShown = true) ∧
    (s.cardFormats.length ≤ 5 → (addNewFormat s).cardFormats.length ≤ 5) := by
  refine ⟨fun h => ?_, fun h => ?_, fun h => ?_⟩
  · have h5 : ¬ 5 ≤ s.cardFormats.length := by omega
    simp [addNewFormat, h5, reloadTabs]
  · simp [addNewFormat, h]
  · by_cases h5 : 5 ≤ s.cardFormats.length
    · simp [addNewFormat, h5]
      omega
    · simp [addNewFormat, h5, reloadTabs]
      omega

/-- C4, counterexample: with the backing panel element absent,
`_setCardFormatIndex` is not a no-op: it throws (and the controller index has
already been mutated from 0 to 5 when it does). -/
theorem setCardFormatIndex_cex :
    setCardFormatIndex { cardFormatIndex := 0, ankiCardPrimary := none } 5 none =
      .error ("Anki card primary element not found",
        { cardFormatIndex := 5, ankiCardPrimary := none }) := rfl

/-- C4, amended: `_setCardFormatIndex` sets the active index; when the backing
panel element is absent it throws "Anki card primary element not found" (the
index field having already been updated), and when present it succeeds,
updating the index and the panel dataset. -/
theorem setCardFormatIndex_amended (s : PrimaryState) (i : Int) (menu : Option String) :
    (s.ankiCardPrimary = none →
      setCardFormatIndex s i menu =
        .error ("Anki card primary element not found", { s with cardFormatIndex := i })) ∧
    (∀ p, s.ankiCardPrimary = some p →
      setCardFormatIndex s i menu =
        .ok { cardFormatIndex := i,
              ankiCardPrimary := some { cardFormatIndex := some (toString i),
                                        ankiCardMenu := menu } }) := by
  constructor
  · intro h
    simp [setCardFormatIndex, h]
  · intro p h
    simp [setCardFormatIndex, h]

theorem mem_insertNumeric {x y : String × AnkiField} {l : FieldsMap} :
    y ∈ insertNumeric x l ↔ y = x ∨ y ∈ l := by
  induction l with
  | nil => simp [insertNumeric]
  | cons z zs ih =>
      simp only [insertNumeric]
      split <;> simp [List.mem_cons, ih] <;> tauto

theorem mem_sortNumeric {x : String × AnkiField} {l : FieldsMap} :
    x ∈ sortNumeric l ↔ x ∈ l := by
  induction l with
  | nil => simp [sortNumeric]
  | cons z zs ih =>
      show x ∈ insertNumeric z (sortNumeric zs) ↔ _
      simp only [mem_insertNumeric, ih, List.mem_cons]

theorem mem_jsEntries {x : String × AnkiField} {l : FieldsMap} :
    x ∈ jsEntries l ↔ x ∈ l := by
  simp only [jsEntries, List.mem_append, mem_sortNumeric, List.mem_filter]
  by_cases h : isArrayIndex x.1 <;> simp [h]

theorem find?_key_eq {l : FieldsMap} {k : String} {v : AnkiField}
    (hnd : (l.map Prod.fst).Nodup) (hm : (k, v) ∈ l) :
    l.find? (fun p => p.1 == k) = some (k, v) := by
  induction l with
  | nil => simp at hm
  | cons z zs ih =>
      simp only [List.map_cons, List.nodup_cons] at hnd
      rcases List.mem_cons.mp hm with h | h
      · rw [← h]
        simp [List.find?]
      · have hz : z.1 ≠ k := by
          intro he
          exact hnd.1 (he ▸ List.mem_map.mpr ⟨(k, v), h, rfl⟩)
        have : (z.1 == k) = false := by simpa using hz
        simp [List.find?, this, ih hnd.2 h]

theorem jsLookup_eq_of_mem {l : FieldsMap} {k : String} {v : AnkiField}
    (hnd : (l.map Prod.fst).Nodup) (hm : (k, v) ∈ l) :
    jsLookup l k = some v := by
  simp [jsLookup, find?_key_eq hnd hm]

theorem jsLookup_filter_ne {l : FieldsMap} {n k : String} (h : k ≠ n) :
    jsLookup (l.filter (fun p => p.1 != n)) k = jsLookup l k := by
  induction l with
  | nil => rfl
  | cons z zs ih =>
      rw [List.filter_cons]
      by_cases hz : (z.1 != n) = true
      · rw [if_pos hz]
        by_cases hzk : (z.1 == k) = true
        · simp only [jsLookup, List.find?, hzk]
        · rw [Bool.not_eq_true] at hzk
          simp only [jsLookup, List.find?, hzk]
          exact ih
      · have hzn : z.1 = n := by simpa using hz
        rw [if_neg hz]
        have hzk : (z.1 == k) = false := by
          simp only [beq_eq_false_iff_ne, hzn]
          exact fun he => h he.symm
        simp only [jsLookup, List.find?, hzk]
        exact ih

theorem jsLookup_append_fresh {l : FieldsMap} {k : String} {v : AnkiField}
    (h : hasKey l k = false) :
    jsLookup (l ++ [(k, v)]) k = some v := by
  induction l with
  | nil => simp [jsLookup, List.find?]
  | cons z zs ih =>
      simp only [hasKey, List.any_cons, Bool.or_eq_false_iff] at h
      simp only [List.cons_append, jsLookup, List.find?, h.1]
      exact ih (by simpa [hasKey] using h.2)

theorem jsLookup_append_other {l : FieldsMap} {k k2 : String} {v : AnkiField}
    (h : k2 ≠ k) :
    jsLookup (l ++ [(k, v)]) k2 = jsLookup l k2 := by
  induction l with
  | nil =>
      have : (k == k2) = false := by simp; exact fun he => h he.symm
      simp [jsLookup, List.find?, this]
  | cons z zs ih =>
      by_cases hz : z.1 = k2
      · simp [jsLookup, List.find?, hz]
      · have h2 : (z.1 == k2) = false := by simpa using hz
        simp only [List.cons_append, jsLookup, List.find?, h2] at ih ⊢
        exact ih

theorem hasKey_filter_false {l : FieldsMap} {q : String × AnkiField → Bool} {k : String}
    (h : hasKey l k = false) :
    hasKey (l.filter q) k = false := by
  induction l with
  | nil => rfl
  | cons z zs ih =>
      simp only [hasKey, List.any_cons, Bool.or_eq_false_iff] at h
      have ihz := ih (by simpa [hasKey] using h.2)
      simp only [List.filter_cons]
      split
      · simpa [hasKey, h.1] using ihz
      · exact ihz

theorem not_key_of_hasKey_false {l : FieldsMap} {k : String}
    (h : hasKey l k = false) :
    ∀ p ∈ l, p.1 ≠ k := by
  intro p hp he
  have : hasKey l k = true := List.any_eq_true.mpr ⟨p, hp, by simp [he]⟩
  simp [h] at this

theorem hasKey_filter_self {l : FieldsMap} {n : String} :
    hasKey (l.filter (fun p => p.1 != n)) n = false := by
  induction l with
  | nil => rfl
  | cons z zs ih =>
      by_cases hz : z.1 = n
      · simp [List.filter_cons, hz, ih]
      · have h1 : (z.1 != n) = true := by simpa using hz
        have h2 : (z.1 == n) = false := by simpa using hz
        simpa [List.filter_cons, h1, hasKey, h2] using ih

theorem map_fst_filter_ne {l : FieldsMap} {n : String} :
    (l.filter (fun p => p.1 != n)).map Prod.fst = (l.map Prod.fst).filter (fun k => k != n) := by
  induction l with
  | nil => rfl
  | cons z zs ih =>
      simp only [List.filter_cons, List.map_cons]
      split <;> rename_i hc
      · simpa [List.filter_cons, hc] using congrArg (List.cons z.1) ih
      · simpa [List.filter_cons, hc] using ih

theorem jsEntries_concat_nonindex {l : FieldsMap} {k : String} {v : AnkiField}
    (h : isArrayIndex k = false) :
    jsEntries (l ++ [(k, v)]) = jsEntries l ++ [(k, v)] := by
  simp [jsEntries, List.filter_append, h, List.filter_cons, List.append_assoc]

/-- Success-path normal form of `_onFieldNameBlur`: under the rename
conditions the new field map is the old one minus the old key, with the
renamed entry appended. -/
theorem onFieldNameBlur_success {fields : FieldsMap} {index : Nat}
    {input oldName : String} {oldField : AnkiField}
    (hnd : (fields.map Prod.fst).Nodup)
    (hentry : (jsEntries fields)[index]? = some (oldName, oldField))
    (h1 : jsTrim input ≠ oldName) (h2 : jsTrim input ≠ "")
    (h3 : hasKey fields (jsTrim input) = false) :
    onFieldNameBlur fields index input =
      (fields.filter (fun p => p.1 != oldName) ++ [(jsTrim input, oldField)], input) := by
  have hmem : (oldName, oldField) ∈ fields :=
    mem_jsEntries.mp (List.getElem?_mem hentry)
  have hrm : jsLookup fields oldName = some oldField := jsLookup_eq_of_mem hnd hmem
  have hrest : hasKey (fields.filter (fun p => p.1 != oldName)) (jsTrim input) = false :=
    hasKey_filter_false h3
  simp [onFieldNameBlur, hentry, h1, h2, h3, hrm, jsSpreadSet, hrest]

/-- C5: `renameField` trims the entered name; renaming to the current name is
a no-op; an empty or already-used trimmed name leaves the map unchanged and
reverts the displayed input to the old name; otherwise the map is re-keyed so
that the renamed field keeps its value and overwrite policy, every other
field's binding is untouched, the old key is gone, and the relative order of
all other fields is preserved. -/
theorem renameField_spec (fields : FieldsMap) (index : Nat) (input oldName : String)
    (oldField : AnkiField)
    (hnd : (fields.map Prod.fst).Nodup)
    (hentry : (jsEntries fields)[index]? = some (oldName, oldField)) :
    (jsTrim input = oldName → onFieldNameBlur fields index input = (fields, input)) ∧
    (jsTrim input ≠ oldName → jsTrim input = "" →
      onFieldNameBlur fields index input = (fields, oldName)) ∧
    (jsTrim input ≠ oldName → hasKey fields (jsTrim input) = true →
      onFieldNameBlur fields index input = (fields, oldName)) ∧
    (jsTrim input ≠ oldName → jsTrim input ≠ "" → hasKey fields (jsTrim input) = false →
      jsLookup (onFieldNameBlur fields index input).1 (jsTrim input) = some oldField ∧
      (∀ k, k ≠ oldName → k ≠ jsTrim input →
        jsLookup (onFieldNameBlur fields index input).1 k = jsLookup fields k) ∧
      hasKey (onFieldNameBlur fields index input).1 oldName = false ∧
      ((onFieldNameBlur fields index input).1.map Prod.fst).filter (fun k => k != jsTrim input)
        = (fields.map Prod.fst).filter (fun k => k != oldName) ∧
      (onFieldNameBlur fields index input).2 = input) := by
  refine ⟨fun h => ?_, fun h1 h2 => ?_, fun h1 h2 => ?_, fun h1 h2 h3 => ?_⟩
  · simp [onFieldNameBlur, hentry, h]
  · have h1e : ("" : String) ≠ oldName := h2 ▸ h1
    simp [onFieldNameBlur, hentry, h2, h1e]
  · by_cases he : jsTrim input = ""
    · have h1e : ("" : String) ≠ oldName := he ▸ h1
      simp [onFieldNameBlur, hentry, he, h1e]
    · simp [onFieldNameBlur, hentry, h1, he, h2]
  · have hob := onFieldNameBlur_success hnd hentry h1 h2 h3
    rw [hob]
    have hrestKey : hasKey (fields.filter (fun p => p.1 != oldName)) (jsTrim input) = false :=
      hasKey_filter_false h3
    have hb1 : (jsTrim input == oldName) = false := by simpa using h1
    refine ⟨jsLookup_append_fresh hrestKey, ?_, ?_, ?_, rfl⟩
    · intro k hk1 hk2
      rw [jsLookup_append_other hk2, jsLookup_filter_ne hk1]
    · simp only [hasKey, List.any_append, List.any_cons, List.any_nil, Bool.or_eq_false_iff]
      constructor
      · simpa [hasKey] using hasKey_filter_self (l := fields) (n := oldName)
      · simp [hb1]
    · have hall : ∀ a ∈ (fields.filter (fun p => p.1 != oldName)).map Prod.fst,
          (a != jsTrim input) = true := by
        intro a ha
        obtain ⟨p, hp, hpe⟩ := List.mem_map.mp ha
        have hne := not_key_of_hasKey_false hrestKey p hp
        simp only [bne_iff_ne, ne_eq, ← hpe]
        exact hne
      simp [List.filter_append, List.filter_eq_self.mpr hall, map_fst_filter_ne]
      refine List.filter_congr ?_
      intro a ha
      by_cases hao : a = oldName
      · simp [hao]
      · have ham : a ∈ (fields.filter (fun p => p.1 != oldName)).map Prod.fst := by
          rw [map_fst_filter_ne]
          exact List.mem_filter.mpr ⟨ha, by simpa using hao⟩
        simp [hall a ham]

/-- C5, witness: on the map `{A, B}` with row 0 named `A`: renaming to `A` is
a no-op, renaming to the other field's name `B` reverts to `A`, and renaming
to `" C "` (trimmed to `C`) moves the binding to key `C` and removes key `A`. -/
theorem renameField_witness :
    (onFieldNameBlur mAB 0 "A" = (mAB, "A")) ∧
    (onFieldNameBlur mAB 0 "B" = (mAB, "A")) ∧
    jsLookup (onFieldNameBlur mAB 0 " C ").1 (jsTrim " C ") = some fldA ∧
    hasKey (onFieldNameBlur mAB 0 " C ").1 "A" = false := by
  have hA := renameField_spec mAB 0 "A" "A" fldA (by decide) (by decide)
  have hB := renameField_spec mAB 0 "B" "A" fldA (by decide) (by decide)
  have hC := renameField_spec mAB 0 " C " "A" fldA (by decide) (by decide)
  exact ⟨hA.1 (by decide), hB.2.2.1 (by decide) (by decide),
    (hC.2.2.2 (by decide) (by decide) (by decide)).1,
    (hC.2.2.2 (by decide) (by decide) (by decide)).2.2.1⟩

/-- C10, counterexample: renaming row 0 of `{A, B}` to the array-index-like
name `"0"` appends the binding to the map's insertion order, but JS
enumeration puts array-index keys first, so the renamed field's row is
displayed first, not last: the last displayed row is `B`. -/
theorem renameMovesToEnd_cex :
    onFieldNameBlur mAB 0 "0" = ([("B", fldB), ("0", fldA)], "0") ∧
    jsEntries (onFieldNameBlur mAB 0 "0").1 = [("0", fldA), ("B", fldB)] ∧
    (jsEntries (onFieldNameBlur mAB 0 "0").1).getLast? = some ("B", fldB) ∧
    ("B", fldB) ≠ (("0" : String), fldA) := by
  decide

/-- C10, amended: a successful rename puts the renamed field at the last
position of the map's insertion order; the displayed row order is the JS
enumeration order, which coincides on the tail of string keys, so the row
moves to the end of the display whenever the trimmed new name is not an
array-index string (an array-index name is displayed within the leading
numeric section instead). -/
theorem renameMovesToEnd_amended (fields : FieldsMap) (index : Nat)
    (input oldName : String) (oldField : AnkiField)
    (hnd : (fields.map Prod.fst).Nodup)
    (hentry : (jsEntries fields)[index]? = some (oldName, oldField))
    (h1 : jsTrim input ≠ oldName) (h2 : jsTrim input ≠ "")
    (h3 : hasKey fields (jsTrim input) = false) :
    (onFieldNameBlur fields index input).1.getLast? = some (jsTrim input, oldField) ∧
    (isArrayIndex (jsTrim input) = false →
      (jsEntries (onFieldNameBlur fields index input).1).getLast?
        = some (jsTrim input, oldField)) := by
  have hob := onFieldNameBlur_success hnd hentry h1 h2 h3
  rw [hob]
  constructor
  · exact List.getLast?_concat _
  · intro hidx
    rw [jsEntries_concat_nonindex hidx]
    exact List.getLast?_concat _

/-- C10, witness: renaming row 0 of `{A, B}` to `" C "` puts the renamed
binding last in both insertion order and display order. -/
theorem renameMovesToEnd_witness :
    (onFieldNameBlur mAB 0 " C ").1.getLast? = some (jsTrim " C ", fldA) ∧
    (jsEntries (onFieldNameBlur mAB 0 " C ").1).getLast? = some (jsTrim " C ", fldA) := by
  have h := renameMovesToEnd_amended mAB 0 " C " "A" fldA (by decide) (by decide)
    (by decide) (by decide) (by decide)
  exact ⟨h.1, h.2 (by decide)⟩

theorem digitChar_toNat_sub {m : Nat} (h : m < 10) :
    (Nat.digitChar m).toNat - 48 = m := by
  interval_cases m <;> decide

theorem parseDec_append (cs : List Char) (c : Char) :
    parseDec (cs ++ [c]) = 10 * parseDec cs + (c.toNat - 48) := by
  simp [parseDec, List.foldl_append]

theorem toDigitsCore_spec :
    ∀ (fuel n : Nat) (ds : List Char), n < 10 ^ (fuel + 1) →
      ∃ cs, Nat.toDigitsCore 10 (fuel + 1) n ds = cs ++ ds ∧ cs ≠ [] ∧ parseDec cs = n := by
  intro fuel
  induction fuel with
  | zero =>
      intro n ds h
      have h10 : n < 10 := by simpa using h
      have hdiv : n / 10 = 0 := Nat.div_eq_of_lt h10
      have hmod : n % 10 = n := Nat.mod_eq_of_lt h10
      refine ⟨[Nat.digitChar (n % 10)], ?_, by simp, ?_⟩
      · simp [Nat.toDigitsCore, hdiv]
      · simp [parseDec, hmod]
        exact digitChar_toNat_sub h10
  | succ f ih =>
      intro n ds h
      by_cases hdiv : n / 10 = 0
      · have h10 : n < 10 := (Nat.div_eq_zero_iff (by norm_num)).mp hdiv
        have hmod : n % 10 = n := Nat.mod_eq_of_lt h10
        refine ⟨[Nat.digitChar (n % 10)], ?_, by simp, ?_⟩
        · simp [Nat.toDigitsCore, hdiv]
        · simp [parseDec, hmod]
          exact digitChar_toNat_sub h10
      · have hlt : n / 10 < 10 ^ (f + 1) := by
          rw [Nat.div_lt_iff_lt_mul (by norm_num)]
          calc n < 10 ^ (f + 2) := h
          _ = 10 ^ (f + 1) * 10 := by ring
        obtain ⟨cs, hcs, hne, hp⟩ := ih (n / 10) (Nat.digitChar (n % 10) :: ds) hlt
        refine ⟨cs ++ [Nat.digitChar (n % 10)], ?_, by simp, ?_⟩
        · have hstep : Nat.toDigitsCore 10 (f + 1 + 1) n ds =
              Nat.toDigitsCore 10 (f + 1) (n / 10) (Nat.digitChar (n % 10) :: ds) := by
            simp [Nat.toDigitsCore, hdiv]
          rw [hstep, hcs, List.append_assoc]
          rfl
        · rw [parseDec_append, hp]
          have hm : n % 10 < 10 := Nat.mod_lt _ (by norm_num)
          rw [digitChar_toNat_sub hm]
          omega

theorem parseDec_repr (n : Nat) :
    parseDec (Nat.repr n).data = n ∧ (Nat.repr n).data ≠ [] := by
  have hb : n < 10 ^ (n + 1) := by
    have h1 : n < 2 ^ n := Nat.lt_two_pow n
    have h2 : 2 ^ n ≤ 10 ^ n := Nat.pow_le_pow_left (by norm_num) n
    have h3 : 10 ^ n < 10 ^ (n + 1) := Nat.pow_lt_pow_succ (by norm_num)
    omega
  obtain ⟨cs, hcs, hne, hp⟩ := toDigitsCore_spec n n [] hb
  have hdata : (Nat.repr n).data = Nat.toDigitsCore 10 (n + 1) n [] := rfl
  rw [hdata, hcs, List.append_nil]
  exact ⟨hp, hne⟩

theorem repr_injective : Function.Injective Nat.repr := by
  intro a b h
  have ha := (parseDec_repr a).1
  have hb := (parseDec_repr b).1
  rw [← ha, ← hb, h]

theorem string_data_append (a b : String) : (a ++ b).data = a.data ++ b.data := rfl

theorem fieldCandidate_injective : Function.Injective fieldCandidate := by
  have hlen : ∀ k : Nat, ("Field" ++ Nat.repr (k + 1)).data.length ≠ ("Field" : String).data.length := by
    intro k
    rw [string_data_append, List.length_append]
    have hne := (parseDec_repr (k + 1)).2
    have hpos : 0 < (Nat.repr (k + 1)).data.length := List.length_pos.mpr hne
    omega
  intro a b h
  match a, b with
  | 0, 0 => rfl
  | 0, k + 1 =>
      exact absurd (congrArg (fun s => s.data.length) h.symm) (hlen k)
  | j + 1, 0 =>
      exact absurd (congrArg (fun s => s.data.length) h) (hlen j)
  | j + 1, k + 1 =>
      have hd := congrArg String.data h
      rw [show fieldCandidate (j + 1) = "Field" ++ Nat.repr (j + 1) from rfl,
        show fieldCandidate (k + 1) = "Field" ++ Nat.repr (k + 1) from rfl,
        string_data_append, string_data_append] at hd
      have hdd : (Nat.repr (j + 1)).data = (Nat.repr (k + 1)).data :=
        List.append_cancel_left hd
      have : j + 1 = k + 1 := by
        have ha := (parseDec_repr (j + 1)).1
        have hb := (parseDec_repr (k + 1)).1
        rw [← ha, ← hb, hdd]
      omega

theorem exists_fresh_candidate (fields : FieldsMap) :
    ∃ k, k ≤ fields.length ∧ hasKey fields (fieldCandidate k) = false := by
  by_contra hc
  push_neg at hc
  have hmem : ∀ k ∈ Finset.range (fields.length + 1),
      fieldCandidate k ∈ (fields.map Prod.fst).toFinset := by
    intro k hk
    have hk' := hc k (Nat.lt_succ_iff.mp (Finset.mem_range.mp hk))
    have htrue : hasKey fields (fieldCandidate k) = true := by
      cases h : hasKey fields (fieldCandidate k)
      · exact absurd h hk'
      · rfl
    obtain ⟨p, hp, hpe⟩ := List.any_eq_true.mp htrue
    rw [List.mem_toFinset]
    exact List.mem_map.mpr ⟨p, hp, by simpa using hpe⟩
  have hsub : (Finset.range (fields.length + 1)).image fieldCandidate ⊆
      (fields.map Prod.fst).toFinset := by
    intro x hx
    obtain ⟨k, hk, rfl⟩ := Finset.mem_image.mp hx
    exact hmem k hk
  have hcard := Finset.card_le_card hsub
  rw [Finset.card_image_of_injective _ fieldCandidate_injective, Finset.card_range] at hcard
  have hfin := (fields.map Prod.fst).toFinset_card_le
  rw [List.length_map] at hfin
  omega

theorem genFieldNameAux_eq (fields : FieldsMap) :
    ∀ (fuel c m : Nat), m < fuel →
      (∀ j, j < m → hasKey fields (fieldCandidate (c + j)) = true) →
      hasKey fields (fieldCandidate (c + m)) = false →
      genFieldNameAux fields fuel c = fieldCandidate (c + m) := by
  intro fuel
  induction fuel with
  | zero =>
      intro c m h
      omega
  | succ f ih =>
      intro c m hm hall hfree
      cases m with
      | zero =>
          rw [Nat.add_zero] at hfree
          simp [genFieldNameAux, hfree]
      | succ m' =>
          have h0 : hasKey fields (fieldCandidate c) = true := by
            simpa using hall 0 (by omega)
          simp only [genFieldNameAux, h0, if_true]
          have hall' : ∀ j, j < m' → hasKey fields (fieldCandidate (c + 1 + j)) = true := by
            intro j hj
            have := hall (j + 1) (by omega)
            rwa [show c + (j + 1) = c + 1 + j by omega] at this
          have hfree' : hasKey fields (fieldCandidate (c + 1 + m')) = false := by
            rwa [show c + (m' + 1) = c + 1 + m' by omega] at hfree
          rw [ih (c + 1) m' (by omega) hall' hfree']
          rw [show c + 1 + m' = c + (m' + 1) by omega]

theorem genFieldName_first_fresh (fields : FieldsMap) :
    hasKey fields (genFieldName fields) = false ∧
    ∃ k, genFieldName fields = fieldCandidate k ∧
      ∀ j, j < k → hasKey fields (fieldCandidate j) = true := by
  obtain ⟨k0, hk0le, hk0free⟩ := exists_fresh_candidate fields
  have hex : ∃ k, hasKey fields (fieldCandidate k) = false := ⟨k0, hk0free⟩
  have hmfree : hasKey fields (fieldCandidate (Nat.find hex)) = false := Nat.find_spec hex
  have hmle : Nat.find hex ≤ k0 := Nat.find_min' hex hk0free
  have hall : ∀ j, j < Nat.find hex → hasKey fields (fieldCandidate j) = true := by
    intro j hj
    have hnf := Nat.find_min hex hj
    cases h : hasKey fields (fieldCandidate j)
    · exact absurd h hnf
    · rfl
  have hgen : genFieldName fields = fieldCandidate (Nat.find hex) := by
    have := genFieldNameAux_eq fields (fields.length + 1) 0 (Nat.find hex)
      (by omega) (by simpa using hall) (by simpa using hmfree)
    simpa [genFieldName] using this
  exact ⟨hgen ▸ hmfree, Nat.find hex, hgen, hall⟩

/-- C6: `addField` inserts a new field named by the first of `Field`,
`Field1`, `Field2`, ... not already present as a key, with empty value and
overwrite policy `coalesce`; the generated name never collides with any
existing field, including names produced by an earlier `addField` call. -/
theorem addField_fresh_spec (fields : FieldsMap) :
    hasKey fields (genFieldName fields) = false ∧
    (∃ k, genFieldName fields = fieldCandidate k ∧
      ∀ j, j < k → hasKey fields (fieldCandidate j) = true) ∧
    addFieldOp fields =
      fields ++ [(genFieldName fields, { value := "", overwriteMode := "coalesce" })] ∧
    jsLookup (addFieldOp fields) (genFieldName fields) =
      some { value := "", overwriteMode := "coalesce" } ∧
    hasKey (addFieldOp fields) (genFieldName (addFieldOp fields)) = false ∧
    genFieldName (addFieldOp fields) ≠ genFieldName fields := by
  obtain ⟨hfresh, hfirst⟩ := genFieldName_first_fresh fields
  have hop : addFieldOp fields =
      fields ++ [(genFieldName fields, { value := "", overwriteMode := "coalesce" })] := by
    simp [addFieldOp, jsSpreadSet, hfresh]
  have hfresh2 := (genFieldName_first_fresh (addFieldOp fields)).1
  refine ⟨hfresh, hfirst, hop, ?_, hfresh2, ?_⟩
  · rw [hop]
    exact jsLookup_append_fresh hfresh
  · intro he
    have hkey : hasKey (addFieldOp fields) (genFieldName fields) = true := by
      rw [hop]
      simp [hasKey, List.any_append]
    rw [he] at hfresh2
    rw [hfresh2] at hkey
    exact Bool.false_ne_true hkey

/-- C7: default-marker lookup for a non-first row matches the field name
case-insensitively against each canonical marker name and its aliases, a
hyphen position accepting any run of hyphens, underscores or spaces; a name
matching no entry yields the empty string.  `Term-Reading` resolves to
`{reading}` (via the alias `term-reading`), `TERM_READING` likewise (case
insensitivity and an underscore at the hyphen position), and `unknown-field`
resolves to the empty string. -/
theorem defaultMarker_spec :
    getDefaultFieldValue "Term-Reading" 1 .term none = "{reading}" ∧
    getDefaultFieldValue "TERM_READING" 1 .term none = "{reading}" ∧
    getDefaultFieldValue "unknown-field" 1 .term none = "" := by
  decide

/-- C8: a row's `data-invalid` flag is set exactly when the row lacks a
required permission grant (`data-has-permissions` is `"false"`), or the row
index is 0 and the template value contains no recognized marker token; the
check is a total computation on the row state, never an exception. -/
theorem validateField_spec (hasPermissionsAttr : Option String) (index : Nat)
    (value : String) (containsMarker : String → Bool) :
    validateField hasPermissionsAttr index value containsMarker = true ↔
      (hasPermissionsAttr = some "false" ∨ (index = 0 ∧ containsMarker value = false)) := by
  by_cases ha : hasPermissionsAttr = some "false" <;>
    by_cases hi : index = 0 <;>
      by_cases hc : containsMarker value = true <;>
        simp [validateField, ha, hi, hc]

/-- C9: an error thrown by a remote deck-name or model-name fetch is caught
at the call site (the helper returns the empty name list paired with the
error), `_getAnkiData` still returns data and merely records a display
string, and the display string is the message with a trailing period
appended exactly when the message does not already end in `.`, `!` or
`?`. -/
theorem ankiError_spec (e : RemoteError) (modelRes : Except RemoteError (List String))
    (sortFn : List String → List String) :
    getDeckNamesCaught (.error e) sortFn = ([], some e) ∧
    getModelNamesCaught (.error e) sortFn = ([], some e) ∧
    (getAnkiData (.error e) modelRes sortFn).1.1 = [] ∧
    (getAnkiData (.error e) modelRes sortFn).2 = some (ankiErrorDisplayString e) ∧
    (e.message ≠ "" → endsWithTerminalPunctuation e.message = false →
      ankiErrorDisplayString e = e.message ++ ".") ∧
    (e.message ≠ "" → endsWithTerminalPunctuation e.message = true →
      ankiErrorDisplayString e = e.message) := by
  refine ⟨rfl, rfl, rfl, rfl, fun h1 h2 => ?_, fun h1 h2 => ?_⟩
  · simp [ankiErrorDisplayString, h1, h2]
  · simp [ankiErrorDisplayString, h1, h2]

end AnkiSpec
